import Mathlib

/-!
Shallow embedding of the data-acquisition core of the `m2` repository
(`update_data.py`, `refactored_update_data.py`, `src/data/fetcher.py`,
`src/config/__init__.py`), together with theorems settling the frozen
specification claims about it.

Conventions of the embedding:
* Python `float` values are modelled as `ℚ` (exact rationals); every value a
  run of the program actually handles is a finite decimal, hence representable.
* Python `datetime` values are modelled by `DateTime` below: a day number
  (days since the Unix epoch, as produced by the standard civil-calendar
  formula `civilDay`) plus a seconds-within-day component.  `datetime`
  comparison is the corresponding lexicographic order.
* A fallible Python call (network fetch, parse) is modelled by an explicit
  environment argument returning `Option`/`Except`, `none`/`.error` standing
  for a raised-and-caught exception.
* `yaml.safe_dump`/`yaml.safe_load` are modelled down to the level of scalar
  tokens: a float is dumped as a sign, integer digits, fraction digits and a
  decimal exponent (the text rendering of those digits is not modelled).
-/

/-- A `datetime.datetime` value: `day` = days since 1970-01-01 (civil),
`sec` = seconds within the day.  `datetime.date` values are plain `ℤ` days. -/
structure DateTime where
  day : ℤ
  sec : ℕ
deriving DecidableEq

/-- `datetime` comparison: lexicographic on (day, seconds-within-day). -/
def DateTime.le (a b : DateTime) : Prop :=
  a.day < b.day ∨ (a.day = b.day ∧ a.sec ≤ b.sec)

instance : LE DateTime := ⟨DateTime.le⟩

instance (a b : DateTime) : Decidable (a ≤ b) :=
  inferInstanceAs (Decidable (a.day < b.day ∨ (a.day = b.day ∧ a.sec ≤ b.sec)))

/-- `datetime.timedelta(days=n)` subtraction: `dt - timedelta(days=n)`. -/
def DateTime.subDays (a : DateTime) (n : ℕ) : DateTime :=
  ⟨a.day - n, a.sec⟩

/-- Day number of a civil date (days since 1970-01-01), the standard
days-from-civil formula; used only to name concrete dates in theorems. -/
def civilDay (y m d : ℤ) : ℤ :=
  let y' := if m ≤ 2 then y - 1 else y
  let era := (if 0 ≤ y' then y' else y' - 399) / 400
  let yoe := y' - era * 400
  let mp := (m + 9) % 12
  let doy := (153 * mp + 2) / 5 + d - 1
  let doe := yoe * 365 + yoe / 4 - yoe / 100 + doy
  era * 146097 + doe - 719468

/-- One record of `data.yml` as the Python code manipulates it: an
insertion-ordered dict of indicator id ↦ optional value, plus the
`"timestamp"` entry (ISO-8601 string in Python, parsed here). -/
structure Record where
  values : List (String × Option ℚ)
  timestamp : DateTime
deriving DecidableEq

/-- Python `dict.get(k)`: `None` both when the key is absent and when the
stored value is `None`. -/
def getVal (vs : List (String × Option ℚ)) (k : String) : Option ℚ :=
  (vs.lookup k).getD none

/-- `FRED_SERIES` from `update_data.py`. -/
def FRED_SERIES : List String :=
  ["M2SL", "WALCL", "RRPONTSYD", "PCEPILFE", "BAMLH0A0HYM2"]

/-- `YAHOO_TICKERS` from `update_data.py`: indicator name ↦ ordered candidate
ticker symbols (first preferred). -/
def YAHOO_TICKERS : List (String × List String) :=
  [("DXY", ["DX-Y.NYB", "DX=F"]),
   ("TNX", ["^TNX"]),
   ("VIX", ["^VIX"]),
   ("NDX", ["^NDX"]),
   ("BTCUSD", ["BTC-USD"]),
   ("GOLD", ["XAUUSD=X", "GC=F"])]

/-- `HISTORY_DAYS = 365 * 5` from `update_data.py`. -/
def HISTORY_DAYS : ℕ := 365 * 5

/-! ## Fetch layer (`get_fred`, `get_yahoo` and the `DataFetcher` variants) -/

/-- The last cell of a FRED CSV value column: either a numeric cell or the
upstream missing-value marker `"."` (a non-numeric string). -/
inductive FredCell where
  | num (q : ℚ)
  | dot
deriving DecidableEq

/-- `update_data.get_fred`: the environment gives the parsed CSV value column
(`.error` = network/parse exception).  `float(".")` raises `ValueError`, and
an empty frame makes `iloc[-1]` raise; both are caught and yield `None`. -/
def get_fred (r : Except Unit (List FredCell)) : Option ℚ :=
  match r with
  | Except.error _ => none
  | Except.ok cells =>
    match cells.getLast? with
    | none => none
    | some (FredCell.num q) => some q
    | some FredCell.dot => none

/-- `DataFetcher.fetch_fred_current`: same inputs; an empty frame and the
explicit `pd.isna(value) or value == '.'` check both yield `None`. -/
def fetch_fred_current (r : Except Unit (List FredCell)) : Option ℚ :=
  match r with
  | Except.error _ => none
  | Except.ok cells =>
    match cells.getLast? with
    | none => none
    | some (FredCell.num q) => some q
    | some FredCell.dot => none

/-- Upstream state of one Yahoo candidate symbol: the `yfinance` history call
(`.ok` = the `Close` column, possibly empty; `.error` = exception) and the
direct quote-API fallback. -/
structure YSym where
  yfin : Except Unit (List ℚ)
  api : Except Unit ℚ

/-- `update_data.get_yahoo`: per candidate symbol, try `yfinance` (an empty
frame makes `iloc[-1]` raise, falling into the `except` branch); on exception
try the quote API; on failure of both, advance to the next candidate; return
`None` once all candidates are exhausted. -/
def get_yahoo (env : String → YSym) : List String → Option ℚ
  | [] => none
  | s :: rest =>
    match (env s).yfin with
    | Except.ok closes =>
      match closes.getLast? with
      | some v => some v
      | none =>
        match (env s).api with
        | Except.ok v => some v
        | Except.error _ => get_yahoo env rest
    | Except.error _ =>
      match (env s).api with
      | Except.ok v => some v
      | Except.error _ => get_yahoo env rest

/-- `DataFetcher.fetch_yahoo_current`: like `get_yahoo` except that a
successful `yfinance` call returning an empty frame just advances the loop
(the quote-API fallback is attempted only when `yfinance` raises). -/
def fetch_yahoo_current (env : String → YSym) : List String → Option ℚ
  | [] => none
  | s :: rest =>
    match (env s).yfin with
    | Except.ok closes =>
      match closes.getLast? with
      | some v => some v
      | none => fetch_yahoo_current env rest
    | Except.error _ =>
      match (env s).api with
      | Except.ok v => some v
      | Except.error _ => fetch_yahoo_current env rest

/-- The per-candidate outcome realised by `get_yahoo`'s loop body. -/
def ySymResult (y : YSym) : Option ℚ :=
  match y.yfin with
  | Except.ok closes =>
    match closes.getLast? with
    | some v => some v
    | none =>
      match y.api with
      | Except.ok v => some v
      | Except.error _ => none
  | Except.error _ =>
    match y.api with
    | Except.ok v => some v
    | Except.error _ => none

/-- The per-candidate outcome realised by `fetch_yahoo_current`'s loop body. -/
def ySymResultF (y : YSym) : Option ℚ :=
  match y.yfin with
  | Except.ok closes =>
    match closes.getLast? with
    | some v => some v
    | none => none
  | Except.error _ =>
    match y.api with
    | Except.ok v => some v
    | Except.error _ => none

/-- First `some` of a list of optional results (ordered fallback). -/
def firstSuccess : List (Option ℚ) → Option ℚ
  | [] => none
  | some v :: _ => some v
  | none :: rest => firstSuccess rest

/-- `update_data.get_fred_history`: the environment gives the parsed,
numeric-coerced, NaN-dropped series (`none` = any exception); the function
filters it to dates `≥ start`. -/
def get_fred_history (env : String → Option (List (ℤ × ℚ))) (start : ℤ)
    (sid : String) : Option (List (ℤ × ℚ)) :=
  (env sid).map (fun s => s.filter (fun p => decide (start ≤ p.1)))

/-- `update_data.get_yahoo_history`: per candidate symbol, the `yfinance`
5-year history (`none` = exception); returns the first non-empty series,
`None` when every candidate fails or is empty. -/
def get_yahoo_history (env : String → Option (List (ℤ × ℚ))) :
    List String → Option (List (ℤ × ℚ))
  | [] => none
  | s :: rest =>
    match env s with
    | some h => if h.isEmpty then get_yahoo_history env rest else some h
    | none => get_yahoo_history env rest

/-! ## SnapshotStore operations -/

/-- `trim_history` (`update_data.py` lines 107-110 and the identical
refactored version): keep the records whose parsed timestamp is at least
`utcnow - timedelta(days=HISTORY_DAYS)`.  The `Record` type already carries
the parsed timestamp of the stored ISO string. -/
def trim_history (now : DateTime) (records : List Record) : List Record :=
  records.filter (fun r => decide (now.subDays HISTORY_DAYS ≤ r.timestamp))

/-! ## Append mode (`update_data.main`, default branch) -/

/-- One FRED entry of the snapshot dict of `update_data.main`'s default
branch: the fetched value, or the last stored value when the fetch failed. -/
def fredAppendVal (fe : String → Except Unit (List FredCell))
    (lastVals : List (String × Option ℚ)) (s : String) : Option ℚ :=
  match get_fred (fe s) with
  | some v => some v
  | none => getVal lastVals s

/-- One Yahoo entry of the snapshot dict: the fetched value (TNX divided by
10 when freshly fetched), or the last stored value when the fetch failed. -/
def yahooAppendVal (ye : String → YSym)
    (lastVals : List (String × Option ℚ)) (p : String × List String) : Option ℚ :=
  match (if p.1 = "TNX" then (get_yahoo ye p.2).map (fun x => x / 10)
         else get_yahoo ye p.2) with
  | some w => some w
  | none => getVal lastVals p.1

/-- The snapshot dict built by `update_data.main`'s default branch: FRED
values, then Yahoo values, then the `"timestamp"` entry stamped `utcnow`. -/
def appendEntry (now : DateTime) (fe : String → Except Unit (List FredCell))
    (ye : String → YSym) (lastVals : List (String × Option ℚ)) : Record :=
  { values :=
      FRED_SERIES.map (fun s => (s, fredAppendVal fe lastVals s))
      ++ YAHOO_TICKERS.map (fun p => (p.1, yahooAppendVal ye lastVals p))
    timestamp := now }

/-- `update_data.main`, default (append) branch, after loading: take the last
stored record's values as fallback (`{}` when the log is empty), append the
fresh snapshot, and trim. -/
def mainAppend (now : DateTime) (fe : String → Except Unit (List FredCell))
    (ye : String → YSym) (prior : List Record) : List Record :=
  let lastVals := (prior.getLast?.map Record.values).getD []
  trim_history now (prior ++ [appendEntry now fe ye lastVals])

/-- Boolean check that a log is ordered ascending by timestamp. -/
def tsSorted : List Record → Bool
  | [] => true
  | [_] => true
  | a :: b :: rest => decide (a.timestamp ≤ b.timestamp) && tsSorted (b :: rest)

/-! ## PanelBuilder (`backfill_last_5y`) -/

/-- `pd.date_range(start, end, freq="D")`: the inclusive list of days. -/
def gridDays (start stop : ℤ) : List ℤ :=
  (List.range ((stop - start).toNat + 1)).map (fun i : ℕ => start + (i : ℤ))

/-- Index lookup of a date in a (unique-dated) pandas series. -/
def seriesLookup (s : List (ℤ × ℚ)) (d : ℤ) : Option ℚ :=
  (s.find? (fun p => decide (p.1 = d))).map (fun p => p.2)

/-- Column assignment `df[name] = s`: align the fetched series onto the daily
grid (fetched dates outside the grid are dropped, grid dates absent from the
fetch are `NaN`); a failed or empty fetch leaves the schema column all-`NaN`
(`update_data.backfill_last_5y` lines 142-163). -/
def mkCol (grid : List ℤ) (res : Option (List (ℤ × ℚ))) : List (Option ℚ) :=
  match res with
  | none => grid.map (fun _ => none)
  | some s => if s.isEmpty then grid.map (fun _ => none) else grid.map (seriesLookup s)

/-- The `s = s / 10.0` correction applied to the TNX series in backfill mode
(`update_data.backfill_last_5y` lines 151-152). -/
def tnxAdjust (name : String) (s : List (ℤ × ℚ)) : List (ℤ × ℚ) :=
  if name = "TNX" then s.map (fun p => (p.1, p.2 / 10)) else s

/-- One step of `DataFrame.ffill` carrying the last seen value. -/
def ffillAux (carry : Option ℚ) : List (Option ℚ) → List (Option ℚ)
  | [] => []
  | some v :: xs => some v :: ffillAux (some v) xs
  | none :: xs => carry :: ffillAux carry xs

/-- `DataFrame.ffill` on one column. -/
def ffill (c : List (Option ℚ)) : List (Option ℚ) := ffillAux none c

/-- `DataFrame.bfill` on one column. -/
def bfill (c : List (Option ℚ)) : List (Option ℚ) := (ffillAux none c.reverse).reverse

/-- Keep the newer observation when present. -/
def stepOpt (a o : Option ℚ) : Option ℚ :=
  match o with
  | some v => some v
  | none => a

/-- Last observed value of a column prefix (what `ffill` propagates). -/
def lastSome : List (Option ℚ) → Option ℚ :=
  List.foldl stepOpt none

/-- First observed value of a column (what `bfill` propagates backwards). -/
def firstSome (c : List (Option ℚ)) : Option ℚ := lastSome c.reverse

/-- Value of a column cell after `ffill` then `bfill`. -/
def fillValue (c : List (Option ℚ)) (i : ℕ) : Option ℚ :=
  match lastSome (c.take (i + 1)) with
  | some v => some v
  | none => firstSome c

/-- The aligned (pre-fill) columns of the backfill frame, in schema order:
FRED series (dates filtered to `≥ start`), then Yahoo tickers (first
non-empty candidate history, TNX divided by 10).  Pandas inserts columns in
success order and appends missing schema columns afterwards; since no claim
concerns column order, the fixed schema order is used here. -/
def backfillCols (H : ℕ) (now : DateTime)
    (fe ye : String → Option (List (ℤ × ℚ))) : List (String × List (Option ℚ)) :=
  let start := now.day - H
  let grid := gridDays start now.day
  FRED_SERIES.map (fun sid => (sid, mkCol grid (get_fred_history fe start sid)))
  ++ YAHOO_TICKERS.map (fun p =>
      (p.1, mkCol grid ((get_yahoo_history ye p.2).map (tnxAdjust p.1))))

/-- Row `i` of the filled backfill frame. -/
def backfillRow (cols : List (String × List (Option ℚ))) (i : ℕ) :
    List (String × Option ℚ) :=
  cols.map (fun p => (p.1, (bfill (ffill p.2)).getD i none))

/-- `update_data.backfill_last_5y` minus the final trim, with the retention
window as a parameter: build the daily grid, align and fill every column,
drop all-`NaN` rows (`dropna(how="all")`), and flatten each surviving row
into a record stamped midnight of its day. -/
def backfillRecords (H : ℕ) (now : DateTime)
    (fe ye : String → Option (List (ℤ × ℚ))) : List Record :=
  let start := now.day - H
  let grid := gridDays start now.day
  let cols := backfillCols H now fe ye
  ((List.range grid.length).filter
        (fun i => (backfillRow cols i).any (fun kv => kv.2.isSome))).map
    (fun i => { values := backfillRow cols i
                timestamp := ⟨grid.getD i 0, 0⟩ })

/-- `update_data.backfill_last_5y`: the 5-year reconstruction followed by
`trim_history`. -/
def backfill_last_5y (now : DateTime)
    (fe ye : String → Option (List (ℤ × ℚ))) : List Record :=
  trim_history now (backfillRecords HISTORY_DAYS now fe ye)

/-! ## Serialization (`yaml.safe_dump` / `yaml.safe_load`, `data.yml`) -/

/-- A YAML scalar token as written by `yaml.safe_dump` for this store: a
decimal number (sign, integer digits, `k` fraction digits), `null`, or the
quoted timestamp string (carried here as its parsed value). -/
inductive Tok where
  | tnum (neg : Bool) (ip fp k : ℕ)
  | tnull
  | tstr (ts : DateTime)
deriving DecidableEq

/-- One flat YAML mapping of the store file. -/
abbrev TokRecord := List (String × Tok)

/-- A parsed `data.yml` document: a list of mappings, the legacy
single-mapping shape, or an empty document (`safe_load` returns `None`). -/
inductive Doc where
  | dlist (l : List TokRecord)
  | ddict (r : TokRecord)
  | dempty
deriving DecidableEq

/-- The value of the decimal token `±(ip.fp)` with `k` fraction digits. -/
def parseNum (neg : Bool) (ip fp k : ℕ) : ℚ :=
  (if neg then -1 else 1) * (((ip * 10 ^ k + fp : ℕ) : ℚ) / ((10 ^ k : ℕ) : ℚ))

/-- Dump a float as a decimal token: `k` fraction digits where `10^k` clears
the denominator (floats are dyadic, so a finite decimal always exists;
`k ≥ 1` because `safe_dump` always writes at least one fraction digit). -/
def dumpQ (q : ℚ) : Tok :=
  let k := max q.den 1
  let N := q.num.natAbs * (10 ^ k / q.den)
  Tok.tnum (decide (q.num < 0)) (N / 10 ^ k) (N % 10 ^ k) k

/-- A float whose denominator is cleared by a power of ten — every value
`yaml.safe_dump` is ever given (Python floats are dyadic rationals). -/
def FiniteDec (q : ℚ) : Prop := q.den ∣ 10 ^ q.den

instance (q : ℚ) : Decidable (FiniteDec q) :=
  inferInstanceAs (Decidable (q.den ∣ 10 ^ q.den))

/-- Dump one optional indicator value. -/
def dumpVal : Option ℚ → Tok
  | some q => dumpQ q
  | none => Tok.tnull

/-- Read back one indicator token (`none` = not an indicator value). -/
def parseTok : Tok → Option (Option ℚ)
  | Tok.tnum neg ip fp k => some (some (parseNum neg ip fp k))
  | Tok.tnull => some none
  | Tok.tstr _ => none

/-- Serialize one record: the indicator entries in insertion order, then the
`"timestamp"` entry (the construction order of `entry` in the source). -/
def dumpRecord (r : Record) : TokRecord :=
  r.values.map (fun p => (p.1, dumpVal p.2)) ++ [("timestamp", Tok.tstr r.timestamp)]

/-- Parse the indicator entries of a stored mapping, entry by entry. -/
def parseVals : List (String × Tok) → Option (List (String × Option ℚ))
  | [] => some []
  | p :: rest =>
    match parseTok p.2, parseVals rest with
    | some v, some vs => some ((p.1, v) :: vs)
    | _, _ => none

/-- Parse one stored mapping back into a `Record` (`none` when the mapping
has no string-valued `"timestamp"` entry or a non-scalar indicator value). -/
def parseRecord (tr : TokRecord) : Option Record :=
  match tr.lookup "timestamp" with
  | some (Tok.tstr ts) =>
    match parseVals (tr.filter (fun p => p.1 != "timestamp")) with
    | some vals => some { values := vals, timestamp := ts }
    | none => none
  | _ => none

/-- `save_history` (`update_data.py` lines 113-115): `yaml.safe_dump` of the
record list, written wholesale. -/
def save_history (records : List Record) : Doc :=
  Doc.dlist (records.map dumpRecord)

/-- Normalization done after `yaml.safe_load`: `or []` turns an empty
document into `[]`, and the legacy single-dict shape becomes a one-element
list. -/
def loadDoc : Doc → List TokRecord
  | Doc.dlist l => l
  | Doc.ddict r => [r]
  | Doc.dempty => []

/-- Parse a list of stored mappings, mapping by mapping. -/
def parseRecs : List TokRecord → Option (List Record)
  | [] => some []
  | tr :: rest =>
    match parseRecord tr, parseRecs rest with
    | some r, some rs => some (r :: rs)
    | _, _ => none

/-- Parse every stored mapping of a document. -/
def loadRecords (d : Doc) : Option (List Record) :=
  parseRecs (loadDoc d)

/-- State of the `data.yml` file: absent, or present with `some` parsed
document, `none` standing for unreadable/malformed content (where
`yaml.safe_load` raises). -/
inductive FileState where
  | absent
  | file (d : Option Doc)
deriving DecidableEq

/-- `load_existing` (`update_data.py` lines 26-34): empty list when the file
does not exist; a parse error propagates (fatal); otherwise the normalized
record list. -/
def load_existing : FileState → Except Unit (List TokRecord)
  | FileState.absent => Except.ok []
  | FileState.file none => Except.error ()
  | FileState.file (some d) => Except.ok (loadDoc d)

/-- `EconomicDataUpdater.load_existing_data` (`refactored_update_data.py`
lines 25-39): identical, except that any load exception is caught, logged
and turned into the empty list. -/
def load_existing_refactored : FileState → Except Unit (List TokRecord)
  | FileState.absent => Except.ok []
  | FileState.file none => Except.ok []
  | FileState.file (some d) => Except.ok (loadDoc d)

/-- Makeshift fault model for `save_history`'s file write: `open(path, "w")`
truncates the file before `yaml.safe_dump` streams the records, so an
interrupted write (`failAfter n`) leaves only the first `n` serialized
records; `success` is a completed dump.  The `prior` argument is the file
content the write replaces. -/
inductive WriteOutcome where
  | success
  | failAfter (n : ℕ)
deriving DecidableEq

/-- Resulting `data.yml` content of a `save_history` call under the fault
model above. -/
def save_history_run (prior : List TokRecord) (records : List Record)
    (o : WriteOutcome) : List TokRecord :=
  match o with
  | WriteOutcome.success => records.map dumpRecord
  | WriteOutcome.failAfter n => (records.map dumpRecord).take n

/-- `update_data.main`, `--backfill` branch: an empty reconstruction leaves
the store untouched (`if not records: return`); otherwise the store is
replaced wholesale by the serialized records. -/
def main_backfill (now : DateTime) (fe ye : String → Option (List (ℤ × ℚ)))
    (prior : FileState) : FileState :=
  let records := backfill_last_5y now fe ye
  if records.isEmpty then prior else FileState.file (some (save_history records))

/-! ## `DataFetcher.fetch_all_current` / `fetch_all_history` (Yahoo side) -/

/-- Catalog entry for one quote-kind indicator (`indicators.yml` shape used
by `DataFetcher`): ordered candidate symbols and the optional
`display_scale` (1 when unconfigured). -/
structure TickerCfg where
  symbols : List String
  display_scale : ℚ
deriving DecidableEq

/-- The multiplicative scaling `value * display_scale` of `fetcher.py`. -/
def applyScale (s v : ℚ) : ℚ := v * s

/-- `DataFetcher.fetch_all_current`, Yahoo-ticker loop (`fetcher.py` lines
156-169): fetch through the candidate chain, scale a fresh value when a
non-trivial `display_scale` is configured, then substitute the fallback
value (unscaled) when the fetch failed and a fallback dict was given. -/
def tickerCurrentVal (env : String → YSym) (fallback : List (String × Option ℚ))
    (p : String × TickerCfg) : Option ℚ :=
  match (if p.2.display_scale = 1 then fetch_yahoo_current env p.2.symbols
         else (fetch_yahoo_current env p.2.symbols).map (applyScale p.2.display_scale)) with
  | none => if fallback.isEmpty then none else getVal fallback p.1
  | some w => some w

/-- `DataFetcher.fetch_all_current`, Yahoo-ticker loop: one entry per
configured ticker, computed by `tickerCurrentVal`. -/
def fetch_all_current_y (cfg : List (String × TickerCfg)) (env : String → YSym)
    (fallback : List (String × Option ℚ)) : List (String × Option ℚ) :=
  cfg.map (fun p => (p.1, tickerCurrentVal env fallback p))

/-- `DataFetcher.fetch_all_history`, one Yahoo-ticker column (`fetcher.py`
lines 192-199 plus the schema fill of lines 202-204): first non-empty
candidate history, scaled by `display_scale` when non-trivial, aligned onto
the grid; a failed or empty fetch leaves the column all-null. -/
def fetch_all_history_col (tcfg : String × TickerCfg)
    (env : String → Option (List (ℤ × ℚ))) (grid : List ℤ) : List (Option ℚ) :=
  match get_yahoo_history env tcfg.2.symbols with
  | some s =>
    if s.isEmpty then grid.map (fun _ => none)
    else mkCol grid (some (if tcfg.2.display_scale = 1 then s
                           else s.map (fun q => (q.1, applyScale tcfg.2.display_scale q.2))))
  | none => grid.map (fun _ => none)

/-- One append cycle restricted to the snapshot values: the values of the
snapshot built with the previous cycle's record as fallback source. -/
def appendCycleVals (now : DateTime) (fe : String → Except Unit (List FredCell))
    (ye : String → YSym) (vals : List (String × Option ℚ)) : List (String × Option ℚ) :=
  (appendEntry now fe ye vals).values

/-! ## Validity predicates for the round-trip claim -/

/-- One stored value `yaml.safe_dump` can faithfully round-trip: absent, or a
finite-decimal number (every Python float is one). -/
def ValidVal : Option ℚ → Prop
  | some q => FiniteDec q
  | none => True

instance (v : Option ℚ) : Decidable (ValidVal v) :=
  match v with
  | some q => inferInstanceAs (Decidable (FiniteDec q))
  | none => inferInstanceAs (Decidable True)

/-- A well-formed in-memory log: no record uses the reserved `"timestamp"`
key for an indicator, and every value is a finite decimal. -/
def ValidStore (records : List Record) : Prop :=
  ∀ r ∈ records, (∀ p ∈ r.values, p.1 ≠ "timestamp") ∧ (∀ p ∈ r.values, ValidVal p.2)

instance (records : List Record) : Decidable (ValidStore records) :=
  inferInstanceAs (Decidable (∀ r ∈ records,
    (∀ p ∈ r.values, p.1 ≠ "timestamp") ∧ (∀ p ∈ r.values, ValidVal p.2)))

/-- Option choice used to state the fill lemmas. -/
def orOpt (a b : Option ℚ) : Option ℚ :=
  match a with
  | some v => some v
  | none => b

/-! # Theorems

Helper lemmas first, then one theorem (plus witness/counterexample) per
specification claim. -/

theorem dt_le_refl (a : DateTime) : a ≤ a := Or.inr ⟨rfl, le_refl _⟩

theorem dt_le_trans {a b c : DateTime} (h1 : a ≤ b) (h2 : b ≤ c) : a ≤ c := by
  rcases h1 with h1 | ⟨e1, s1⟩
  · rcases h2 with h2 | ⟨e2, s2⟩
    · exact Or.inl (lt_trans h1 h2)
    · exact Or.inl (e2 ▸ h1)
  · rcases h2 with h2 | ⟨e2, s2⟩
    · exact Or.inl (e1 ▸ h2)
    · exact Or.inr ⟨e1.trans e2, le_trans s1 s2⟩

theorem firstSuccess_cons_some (v : ℚ) (l : List (Option ℚ)) :
    firstSuccess (some v :: l) = some v := rfl

theorem firstSuccess_cons_none (l : List (Option ℚ)) :
    firstSuccess (none :: l) = firstSuccess l := rfl

theorem firstSuccess_eq_none (l : List (Option ℚ)) (h : ∀ x ∈ l, x = none) :
    firstSuccess l = none := by
  induction l with
  | nil => rfl
  | cons x rest ih =>
    have hx := h x (List.mem_cons_self x rest)
    subst hx
    exact (firstSuccess_cons_none rest).trans (ih fun y hy => h y (List.mem_cons_of_mem _ hy))

theorem firstSuccess_cons (x : Option ℚ) (l : List (Option ℚ)) :
    firstSuccess (x :: l) = orOpt x (firstSuccess l) := by
  cases x <;> rfl

theorem get_yahoo_cons (env : String → YSym) (s : String) (rest : List String) :
    get_yahoo env (s :: rest) = orOpt (ySymResult (env s)) (get_yahoo env rest) := by
  simp only [get_yahoo, ySymResult]
  cases h1 : (env s).yfin with
  | ok closes =>
    cases h2 : closes.getLast? with
    | some v => simp [orOpt, h2]
    | none =>
      cases h3 : (env s).api with
      | ok v => simp [orOpt, h2, h3]
      | error e => simp [orOpt, h2, h3]
  | error e =>
    cases h3 : (env s).api with
    | ok v => simp [orOpt, h3]
    | error e2 => simp [orOpt, h3]

theorem fetch_yahoo_current_cons (env : String → YSym) (s : String) (rest : List String) :
    fetch_yahoo_current env (s :: rest) =
      orOpt (ySymResultF (env s)) (fetch_yahoo_current env rest) := by
  simp only [fetch_yahoo_current, ySymResultF]
  cases h1 : (env s).yfin with
  | ok closes =>
    cases h2 : closes.getLast? with
    | some v => simp [orOpt, h2]
    | none => simp [orOpt, h2]
  | error e =>
    cases h3 : (env s).api with
    | ok v => simp [orOpt, h3]
    | error e2 => simp [orOpt, h3]

theorem get_yahoo_eq_firstSuccess (env : String → YSym) (syms : List String) :
    get_yahoo env syms = firstSuccess (syms.map (fun s => ySymResult (env s))) := by
  induction syms with
  | nil => rfl
  | cons s rest ih => rw [get_yahoo_cons, List.map_cons, firstSuccess_cons, ih]

theorem fetch_yahoo_current_eq_firstSuccess (env : String → YSym) (syms : List String) :
    fetch_yahoo_current env syms = firstSuccess (syms.map (fun s => ySymResultF (env s))) := by
  induction syms with
  | nil => rfl
  | cons s rest ih => rw [fetch_yahoo_current_cons, List.map_cons, firstSuccess_cons, ih]

theorem get_yahoo_exhausted (env : String → YSym) (syms : List String)
    (h : ∀ s ∈ syms, ySymResult (env s) = none) : get_yahoo env syms = none := by
  rw [get_yahoo_eq_firstSuccess]
  refine firstSuccess_eq_none _ (fun x hx => ?_)
  rcases List.mem_map.mp hx with ⟨s, hs, rfl⟩
  exact h s hs

theorem fetch_yahoo_current_exhausted (env : String → YSym) (syms : List String)
    (h : ∀ s ∈ syms, ySymResultF (env s) = none) : fetch_yahoo_current env syms = none := by
  rw [fetch_yahoo_current_eq_firstSuccess]
  refine firstSuccess_eq_none _ (fun x hx => ?_)
  rcases List.mem_map.mp hx with ⟨s, hs, rfl⟩
  exact h s hs

theorem lookup_eq_none_of_keys {β : Type} (l : List (String × β)) (k : String)
    (h : ∀ p ∈ l, p.1 ≠ k) : l.lookup k = none := by
  induction l with
  | nil => rfl
  | cons p rest ih =>
    cases p with
    | mk a b =>
      have hk : (k == a) = false :=
        beq_eq_false_iff_ne.mpr (Ne.symm (h (a, b) (List.mem_cons_self (a, b) rest)))
      rw [List.lookup_cons, hk]
      exact ih (fun q hq => h q (List.mem_cons_of_mem _ hq))

theorem lookup_append_left_none {β : Type} (l1 l2 : List (String × β)) (k : String)
    (h : l1.lookup k = none) : (l1 ++ l2).lookup k = l2.lookup k := by
  induction l1 with
  | nil => rfl
  | cons p rest ih =>
    cases p with
    | mk a b =>
      rw [List.lookup_cons] at h
      rw [List.cons_append, List.lookup_cons]
      cases hk : (k == a) with
      | true => rw [hk] at h; exact absurd h (by simp)
      | false => rw [hk] at h; exact ih h

theorem lookup_map_of_mem_nodup {β γ : Type} (l : List (String × β))
    (f : String × β → γ) (k : String) (b : β)
    (hmem : (k, b) ∈ l) (hnd : (l.map Prod.fst).Nodup) :
    (l.map (fun p => (p.1, f p))).lookup k = some (f (k, b)) := by
  induction l with
  | nil => exact absurd hmem (List.not_mem_nil _)
  | cons p rest ih =>
    cases p with
    | mk a c =>
      simp only [List.map_cons, List.nodup_cons] at hnd
      rcases List.mem_cons.mp hmem with he | hrest
      · injection he with h1 h2
        subst h1
        subst h2
        simp [List.lookup_cons]
      · have hk : (k == a) = false := by
          refine beq_eq_false_iff_ne.mpr (fun e => ?_)
          subst e
          exact hnd.1 (List.mem_map.mpr ⟨(k, b), hrest, rfl⟩)
        simp only [List.map_cons]
        rw [List.lookup_cons]
        rw [hk]
        exact ih hrest hnd.2

/-! ## Fill machinery lemmas -/

theorem orOpt_none (b : Option ℚ) : orOpt none b = b := rfl

theorem foldl_stepOpt (l : List (Option ℚ)) (carry : Option ℚ) :
    l.foldl stepOpt carry = orOpt (lastSome l) carry := by
  induction l generalizing carry with
  | nil => rfl
  | cons x rest ih =>
    have hx : lastSome (x :: rest) = orOpt (lastSome rest) (stepOpt none x) := by
      simp only [lastSome, List.foldl_cons]
      exact ih (stepOpt none x)
    rw [List.foldl_cons, ih (stepOpt carry x), hx]
    cases hl : lastSome rest with
    | some v => rfl
    | none => cases x <;> rfl

theorem lastSome_cons (x : Option ℚ) (l : List (Option ℚ)) :
    lastSome (x :: l) = orOpt (lastSome l) (stepOpt none x) := by
  simp only [lastSome, List.foldl_cons]
  exact foldl_stepOpt l (stepOpt none x)

theorem lastSome_append (a b : List (Option ℚ)) :
    lastSome (a ++ b) = orOpt (lastSome b) (lastSome a) := by
  simp only [lastSome, List.foldl_append]
  exact foldl_stepOpt b (List.foldl stepOpt none a)

theorem lastSome_eq_none_iff (l : List (Option ℚ)) :
    lastSome l = none ↔ ∀ x ∈ l, x = none := by
  induction l with
  | nil => simp [lastSome]
  | cons x rest ih =>
    rw [lastSome_cons]
    constructor
    · intro h
      cases hA : lastSome rest with
      | some v => rw [hA] at h; exact absurd h (by simp [orOpt])
      | none =>
        rw [hA, orOpt_none] at h
        intro y hy
        rcases List.mem_cons.mp hy with rfl | hmem
        · cases y with
          | some v => exact absurd h (by simp [stepOpt])
          | none => rfl
        · exact (ih.mp hA) y hmem
    · intro h
      have hx := h x (List.mem_cons_self x rest)
      subst hx
      rw [ih.mpr (fun y hy => h y (List.mem_cons_of_mem _ hy))]
      rfl

theorem firstSome_cons_some (v : ℚ) (l : List (Option ℚ)) :
    firstSome (some v :: l) = some v := by
  simp only [firstSome, List.reverse_cons]
  rw [lastSome_append]
  rfl

theorem firstSome_cons_none (l : List (Option ℚ)) :
    firstSome (none :: l) = firstSome l := by
  simp only [firstSome, List.reverse_cons]
  rw [lastSome_append]
  rfl

theorem firstSome_eq_none_iff (l : List (Option ℚ)) :
    firstSome l = none ↔ ∀ x ∈ l, x = none := by
  simp only [firstSome]
  rw [lastSome_eq_none_iff]
  constructor <;> intro h x hx
  · exact h x (List.mem_reverse.mpr hx)
  · exact h x (List.mem_reverse.mp hx)

theorem firstSome_append_of_all_none (a b : List (Option ℚ))
    (h : ∀ x ∈ a, x = none) : firstSome (a ++ b) = firstSome b := by
  simp only [firstSome, List.reverse_append]
  rw [lastSome_append,
    (lastSome_eq_none_iff a.reverse).mpr (fun x hx => h x (List.mem_reverse.mp hx))]
  rfl

theorem ffillAux_length (carry : Option ℚ) (l : List (Option ℚ)) :
    (ffillAux carry l).length = l.length := by
  induction l generalizing carry with
  | nil => rfl
  | cons x rest ih => cases x <;> simp [ffillAux, ih]

theorem ffillAux_getElem? (l : List (Option ℚ)) (carry : Option ℚ) (j : ℕ)
    (h : j < l.length) :
    (ffillAux carry l)[j]? = some (orOpt (lastSome (l.take (j + 1))) carry) := by
  induction l generalizing carry j with
  | nil => exact absurd h (Nat.not_lt_zero j)
  | cons x rest ih =>
    cases x with
    | some v =>
      cases j with
      | zero => simp [ffillAux, lastSome, stepOpt, orOpt]
      | succ j2 =>
        simp only [ffillAux]
        rw [List.getElem?_cons_succ, ih (some v) j2 (Nat.lt_of_succ_lt_succ h),
          List.take_succ_cons, lastSome_cons]
        cases lastSome (rest.take (j2 + 1)) <;> rfl
    | none =>
      cases j with
      | zero => simp [ffillAux, lastSome, stepOpt, orOpt]
      | succ j2 =>
        simp only [ffillAux]
        rw [List.getElem?_cons_succ, ih carry j2 (Nat.lt_of_succ_lt_succ h),
          List.take_succ_cons, lastSome_cons]
        cases lastSome (rest.take (j2 + 1)) <;> rfl

theorem ffill_length (c : List (Option ℚ)) : (ffill c).length = c.length :=
  ffillAux_length none c

theorem bfill_length (c : List (Option ℚ)) : (bfill c).length = c.length := by
  simp [bfill, ffillAux_length]

theorem ffill_getElem? (c : List (Option ℚ)) (i : ℕ) (h : i < c.length) :
    (ffill c)[i]? = some (lastSome (c.take (i + 1))) := by
  rw [ffill, ffillAux_getElem? c none i h]
  cases lastSome (c.take (i + 1)) <;> rfl

theorem reverse_take_eq_drop_reverse (l : List (Option ℚ)) (n : ℕ) :
    l.reverse.take (l.length - n) = (l.drop n).reverse := by
  have h2 : l.reverse = (l.drop n).reverse ++ (l.take n).reverse := by
    conv_lhs => rw [← List.take_append_drop n l]
    rw [List.reverse_append]
  rw [h2]
  exact List.take_left' (by simp)

theorem bfill_getElem? (d : List (Option ℚ)) (i : ℕ) (h : i < d.length) :
    (bfill d)[i]? = some (firstSome (d.drop i)) := by
  have hlen : (ffillAux none d.reverse).length = d.length := by
    rw [ffillAux_length, List.length_reverse]
  have hi : i < (ffillAux none d.reverse).length := by rw [hlen]; exact h
  rw [bfill, List.getElem?_reverse hi, hlen]
  have hj : d.length - 1 - i < d.reverse.length := by
    rw [List.length_reverse]; omega
  have hidx : d.length - 1 - i + 1 = d.length - i := by omega
  rw [ffillAux_getElem? d.reverse none (d.length - 1 - i) hj, hidx,
    reverse_take_eq_drop_reverse]
  show some (orOpt (firstSome (d.drop i)) none) = some (firstSome (d.drop i))
  cases firstSome (d.drop i) <;> rfl

theorem ffillAux_append (a b : List (Option ℚ)) (carry : Option ℚ) :
    ffillAux carry (a ++ b) = ffillAux carry a ++ ffillAux (a.foldl stepOpt carry) b := by
  induction a generalizing carry with
  | nil => rfl
  | cons x rest ih =>
    cases x with
    | some v => simp [ffillAux, ih, List.foldl_cons, stepOpt]
    | none => simp [ffillAux, ih, List.foldl_cons, stepOpt]

theorem ffillAux_all_none (l : List (Option ℚ)) (h : ∀ x ∈ l, x = none) :
    ffillAux none l = l := by
  induction l with
  | nil => rfl
  | cons x rest ih =>
    have hx := h x (List.mem_cons_self x rest)
    subst hx
    simp [ffillAux, ih (fun y hy => h y (List.mem_cons_of_mem _ hy))]

theorem firstSome_ffill (l : List (Option ℚ)) : firstSome (ffill l) = firstSome l := by
  induction l with
  | nil => rfl
  | cons x rest ih =>
    cases x with
    | some v =>
      rw [show ffill (some v :: rest) = some v :: ffillAux (some v) rest from rfl,
        firstSome_cons_some, firstSome_cons_some]
    | none =>
      rw [show ffill (none :: rest) = none :: ffillAux none rest from rfl,
        firstSome_cons_none, firstSome_cons_none]
      exact ih

theorem fill_getElem? (c : List (Option ℚ)) (i : ℕ) (h : i < c.length) :
    (bfill (ffill c))[i]? = some (fillValue c i) := by
  have hfl : (ffill c).length = c.length := ffill_length c
  have hi : i < (ffill c).length := by rw [hfl]; exact h
  rw [bfill_getElem? (ffill c) i hi, fillValue]
  congr 1
  cases hcase : lastSome (c.take (i + 1)) with
  | some v =>
    have hget : (ffill c)[i]? = some (some v) := by
      rw [ffill_getElem? c i h, hcase]
    have hgetE : (ffill c)[i] = some v := by
      have h2 := List.getElem?_eq_getElem hi
      rw [hget] at h2
      exact (Option.some.inj h2).symm
    rw [List.drop_eq_getElem_cons hi, hgetE, firstSome_cons_some]
  | none =>
    have hall : ∀ x ∈ c.take (i + 1), x = none := (lastSome_eq_none_iff _).mp hcase
    have hsplit : ffill c = c.take (i + 1) ++ ffill (c.drop (i + 1)) := by
      rw [ffill]
      conv_lhs => rw [← List.take_append_drop (i + 1) c]
      rw [ffillAux_append]
      rw [ffillAux_all_none _ hall]
      rw [show (c.take (i + 1)).foldl stepOpt none = lastSome (c.take (i + 1)) from rfl,
        hcase]
      rfl
    have htlen : (c.take (i + 1)).length = i + 1 := by
      rw [List.length_take]
      omega
    rw [hsplit, List.drop_append_of_le_length (by omega)]
    rw [firstSome_append_of_all_none _ _
      (fun x hx => hall x (List.mem_of_mem_drop hx))]
    rw [firstSome_ffill]
    conv_rhs => rw [← List.take_append_drop (i + 1) c]
    rw [firstSome_append_of_all_none _ _ hall]

theorem fillValue_ne_none (c : List (Option ℚ)) (i : ℕ)
    (hobs : c.any Option.isSome = true) : fillValue c i ≠ none := by
  intro hnone
  rw [fillValue] at hnone
  cases hcase : lastSome (c.take (i + 1)) with
  | some v => rw [hcase] at hnone; exact Option.noConfusion hnone
  | none =>
    rw [hcase] at hnone
    have hall := (firstSome_eq_none_iff c).mp hnone
    rcases List.any_eq_true.mp hobs with ⟨x, hx, hxs⟩
    rw [hall x hx] at hxs
    simp at hxs

theorem fillValue_of_all_none (c : List (Option ℚ)) (i : ℕ)
    (h : ∀ x ∈ c, x = none) : fillValue c i = none := by
  rw [fillValue,
    (lastSome_eq_none_iff _).mpr (fun x hx => h x (List.take_subset _ _ hx))]
  exact (firstSome_eq_none_iff c).mpr h

/-! ## Backfill structure lemmas -/

theorem gridDays_length (start stop : ℤ) :
    (gridDays start stop).length = (stop - start).toNat + 1 := by
  rw [gridDays, List.length_map, List.length_range]

theorem gridDays_getElem? (start stop : ℤ) (i : ℕ)
    (h : i < (stop - start).toNat + 1) :
    (gridDays start stop)[i]? = some (start + i) := by
  rw [gridDays, List.getElem?_map, List.getElem?_range h]
  rfl

theorem gridDays_getD (start stop : ℤ) (i : ℕ)
    (h : i < (stop - start).toNat + 1) :
    (gridDays start stop).getD i 0 = start + i := by
  rw [List.getD_eq_getElem?_getD, gridDays_getElem? start stop i h]
  rfl

theorem mkCol_length (grid : List ℤ) (res : Option (List (ℤ × ℚ))) :
    (mkCol grid res).length = grid.length := by
  cases res with
  | none => simp [mkCol]
  | some s =>
    by_cases hs : s.isEmpty <;> simp [mkCol, hs]

theorem backfillCols_length (H : ℕ) (now : DateTime)
    (fe ye : String → Option (List (ℤ × ℚ))) :
    ∀ p ∈ backfillCols H now fe ye,
      p.2.length = (gridDays (now.day - H) now.day).length := by
  intro p hp
  simp only [backfillCols] at hp
  rcases List.mem_append.mp hp with h | h
  · rcases List.mem_map.mp h with ⟨sid, _, rfl⟩
    exact mkCol_length _ _
  · rcases List.mem_map.mp h with ⟨q, _, rfl⟩
    exact mkCol_length _ _

theorem backfillCols_keys (H : ℕ) (now : DateTime)
    (fe ye : String → Option (List (ℤ × ℚ))) :
    (backfillCols H now fe ye).map Prod.fst
      = FRED_SERIES ++ YAHOO_TICKERS.map Prod.fst := rfl

theorem backfillCols_keys_nodup (H : ℕ) (now : DateTime)
    (fe ye : String → Option (List (ℤ × ℚ))) :
    ((backfillCols H now fe ye).map Prod.fst).Nodup := by
  rw [backfillCols_keys]
  decide

theorem backfillRow_lookup (cols : List (String × List (Option ℚ))) (i : ℕ)
    (n : String) (c : List (Option ℚ)) (hmem : (n, c) ∈ cols)
    (hnd : (cols.map Prod.fst).Nodup) :
    (backfillRow cols i).lookup n = some ((bfill (ffill c)).getD i none) :=
  lookup_map_of_mem_nodup cols _ n c hmem hnd

theorem fill_getD (c : List (Option ℚ)) (i : ℕ) (h : i < c.length) :
    (bfill (ffill c)).getD i none = fillValue c i := by
  rw [List.getD_eq_getElem?_getD, fill_getElem? c i h]
  rfl

theorem backfillRecords_of_obs (H : ℕ) (now : DateTime)
    (fe ye : String → Option (List (ℤ × ℚ)))
    (hobs : ∃ p ∈ backfillCols H now fe ye, p.2.any Option.isSome = true) :
    backfillRecords H now fe ye =
      (List.range (gridDays (now.day - H) now.day).length).map
        (fun i =>
          { values := backfillRow (backfillCols H now fe ye) i
            timestamp := ⟨(gridDays (now.day - H) now.day).getD i 0, 0⟩ }) := by
  simp only [backfillRecords]
  congr 1
  apply List.filter_eq_self.mpr
  intro i hi
  have hiL : i < (gridDays (now.day - H) now.day).length := List.mem_range.mp hi
  rcases hobs with ⟨p, hp, hpobs⟩
  apply List.any_eq_true.mpr
  refine ⟨(p.1, (bfill (ffill p.2)).getD i none), List.mem_map.mpr ⟨p, hp, rfl⟩, ?_⟩
  have hlen := backfillCols_length H now fe ye p hp
  have hfv := fill_getD p.2 i (by rw [hlen]; exact hiL)
  show ((bfill (ffill p.2)).getD i none).isSome = true
  rw [hfv]
  cases hx : fillValue p.2 i with
  | none => exact absurd hx (fillValue_ne_none p.2 i hpobs)
  | some w => rfl

theorem range_filter_pos (n : ℕ) :
    (List.range n).filter (fun i => decide (0 < i)) = (List.range n).drop 1 := by
  cases n with
  | zero => rfl
  | succ m =>
    rw [List.range_succ_eq_map]
    rw [show (0 :: List.map Nat.succ (List.range m)).drop 1
        = List.map Nat.succ (List.range m) from rfl]
    rw [show List.filter (fun i => decide (0 < i)) (0 :: List.map Nat.succ (List.range m))
        = List.filter (fun i => decide (0 < i)) (List.map Nat.succ (List.range m)) from rfl]
    apply List.filter_eq_self.mpr
    intro a ha
    rcases List.mem_map.mp ha with ⟨b, _, rfl⟩
    exact decide_eq_true (Nat.succ_pos b)

theorem gridLength_eq (H : ℕ) (now : DateTime) :
    (gridDays (now.day - H) now.day).length = H + 1 := by
  rw [gridDays_length]
  congr 1
  omega

theorem backfill_last_5y_eq (now : DateTime)
    (fe ye : String → Option (List (ℤ × ℚ)))
    (hobs : ∃ p ∈ backfillCols HISTORY_DAYS now fe ye, p.2.any Option.isSome = true) :
    backfill_last_5y now fe ye =
      ((if now.sec = 0 then List.range (HISTORY_DAYS + 1)
        else (List.range (HISTORY_DAYS + 1)).drop 1).map
        (fun i : ℕ =>
          { values := backfillRow (backfillCols HISTORY_DAYS now fe ye) i
            timestamp := ⟨now.day - HISTORY_DAYS + i, 0⟩ })) := by
  rw [backfill_last_5y, backfillRecords_of_obs _ _ _ _ hobs, gridLength_eq,
    trim_history, List.filter_map]
  have hgetD : ∀ i : ℕ, i < HISTORY_DAYS + 1 →
      (gridDays (now.day - HISTORY_DAYS) now.day).getD i 0
        = now.day - HISTORY_DAYS + i := by
    intro i hiL
    exact gridDays_getD _ _ i (by omega)
  by_cases hsec : now.sec = 0
  · rw [if_pos hsec]
    rw [List.filter_eq_self.mpr ?_]
    · apply List.map_congr_left
      intro i hi
      have hiL : i < HISTORY_DAYS + 1 := List.mem_range.mp hi
      rw [hgetD i hiL]
    · intro i hi
      have hiL : i < HISTORY_DAYS + 1 := List.mem_range.mp hi
      apply decide_eq_true
      show now.subDays HISTORY_DAYS
        ≤ ⟨(gridDays (now.day - HISTORY_DAYS) now.day).getD i 0, 0⟩
      rw [hgetD i hiL]
      cases Nat.eq_zero_or_pos i with
      | inl h0 =>
        subst h0
        exact Or.inr ⟨by simp [DateTime.subDays], by simp [DateTime.subDays, hsec]⟩
      | inr hpos => exact Or.inl (by simp only [DateTime.subDays]; omega)
  · rw [if_neg hsec]
    rw [List.filter_congr (q := fun i : ℕ => decide (0 < i)) ?_, range_filter_pos]
    · apply List.map_congr_left
      intro i hi
      have hiL : i < HISTORY_DAYS + 1 := List.mem_range.mp (List.mem_of_mem_drop hi)
      rw [hgetD i hiL]
    · intro i hi
      have hiL : i < HISTORY_DAYS + 1 := List.mem_range.mp hi
      show decide (now.subDays HISTORY_DAYS
        ≤ ⟨(gridDays (now.day - HISTORY_DAYS) now.day).getD i 0, 0⟩) = decide (0 < i)
      rw [hgetD i hiL, decide_eq_decide]
      constructor
      · intro hle
        rcases hle with hlt | ⟨heq, hs⟩
        · simp only [DateTime.subDays] at hlt
          omega
        · exact absurd (Nat.le_zero.mp hs) hsec
      · intro hpos
        exact Or.inl (by simp only [DateTime.subDays]; omega)

theorem backfill_mem (now : DateTime) (fe ye : String → Option (List (ℤ × ℚ)))
    (hobs : ∃ p ∈ backfillCols HISTORY_DAYS now fe ye, p.2.any Option.isSome = true)
    (r : Record) (hr : r ∈ backfill_last_5y now fe ye) :
    ∃ i : ℕ, i < HISTORY_DAYS + 1 ∧
      r.values = backfillRow (backfillCols HISTORY_DAYS now fe ye) i ∧
      r.timestamp = ⟨now.day - HISTORY_DAYS + i, 0⟩ := by
  rw [backfill_last_5y_eq now fe ye hobs] at hr
  rcases List.mem_map.mp hr with ⟨i, hi, rfl⟩
  have hiL : i < HISTORY_DAYS + 1 := by
    by_cases hsec : now.sec = 0
    · rw [if_pos hsec] at hi
      exact List.mem_range.mp hi
    · rw [if_neg hsec] at hi
      exact List.mem_range.mp (List.mem_of_mem_drop hi)
  exact ⟨i, hiL, rfl, rfl⟩

theorem get_yahoo_history_none (env : String → Option (List (ℤ × ℚ)))
    (syms : List String) (h : ∀ s, env s = none) : get_yahoo_history env syms = none := by
  induction syms with
  | nil => rfl
  | cons s rest ih => simp [get_yahoo_history, h s, ih]

theorem mkCol_none_mem (grid : List ℤ) : ∀ x ∈ mkCol grid none, x = none := by
  intro x hx
  rw [mkCol] at hx
  rcases List.mem_map.mp hx with ⟨d, _, rfl⟩
  rfl

theorem backfillCols_all_none (H : ℕ) (now : DateTime)
    (fe ye : String → Option (List (ℤ × ℚ)))
    (hfe : ∀ s, fe s = none) (hye : ∀ s, ye s = none) :
    ∀ p ∈ backfillCols H now fe ye, ∀ x ∈ p.2, x = none := by
  intro p hp
  simp only [backfillCols] at hp
  rcases List.mem_append.mp hp with h | h
  · rcases List.mem_map.mp h with ⟨sid, _, rfl⟩
    have hnone : get_fred_history fe (now.day - H) sid = none := by
      rw [get_fred_history, hfe sid]
      rfl
    rw [hnone]
    exact mkCol_none_mem _
  · rcases List.mem_map.mp h with ⟨q, _, rfl⟩
    have hnone : get_yahoo_history ye q.2 = none := get_yahoo_history_none ye q.2 hye
    rw [hnone]
    exact mkCol_none_mem _

theorem backfill_last_5y_total_failure (now : DateTime)
    (fe ye : String → Option (List (ℤ × ℚ)))
    (hfe : ∀ s, fe s = none) (hye : ∀ s, ye s = none) :
    backfill_last_5y now fe ye = [] := by
  have hall := backfillCols_all_none HISTORY_DAYS now fe ye hfe hye
  rw [backfill_last_5y]
  simp only [backfillRecords]
  have hfil : (List.range (gridDays (now.day - HISTORY_DAYS) now.day).length).filter
      (fun i => (backfillRow (backfillCols HISTORY_DAYS now fe ye) i).any
        (fun kv => kv.2.isSome)) = [] := by
    rw [List.filter_eq_nil_iff]
    intro i hi
    rw [Bool.not_eq_true, List.any_eq_false]
    intro kv hkv
    rcases List.mem_map.mp hkv with ⟨p, hp, rfl⟩
    have hlen := backfillCols_length HISTORY_DAYS now fe ye p hp
    have hiL : i < p.2.length := by rw [hlen]; exact List.mem_range.mp hi
    show ¬((bfill (ffill p.2)).getD i none).isSome = true
    rw [fill_getD p.2 i hiL, fillValue_of_all_none p.2 i (hall p hp)]
    simp
  rw [hfil]
  rfl

/-! ## Trim and ordering lemmas -/

theorem trim_history_mem (now : DateTime) (records : List Record) (r : Record) :
    r ∈ trim_history now records
      ↔ r ∈ records ∧ now.subDays HISTORY_DAYS ≤ r.timestamp := by
  simp [trim_history, List.mem_filter]

theorem trim_history_sublist (now : DateTime) (records : List Record) :
    (trim_history now records).Sublist records :=
  List.filter_sublist records

theorem tsSorted_iff_pairwise (l : List Record) :
    tsSorted l = true ↔ l.Pairwise (fun a b => a.timestamp ≤ b.timestamp) := by
  induction l with
  | nil => simp [tsSorted]
  | cons a rest ih =>
    cases rest with
    | nil => simp [tsSorted]
    | cons b rest2 =>
      rw [show tsSorted (a :: b :: rest2)
          = (decide (a.timestamp ≤ b.timestamp) && tsSorted (b :: rest2)) from rfl]
      rw [Bool.and_eq_true, decide_eq_true_iff, ih]
      constructor
      · rintro ⟨hab, hpw⟩
        refine List.Pairwise.cons ?_ hpw
        intro x hx
        rcases List.mem_cons.mp hx with rfl | hx2
        · exact hab
        · exact dt_le_trans hab ((List.pairwise_cons.mp hpw).1 x hx2)
      · intro hpw
        have h1 := (List.pairwise_cons.mp hpw).1
        exact ⟨h1 b (List.mem_cons_self b rest2), (List.pairwise_cons.mp hpw).2⟩

theorem tsSorted_append_singleton (l : List Record) (x : Record)
    (hl : tsSorted l = true) (hx : ∀ r ∈ l, r.timestamp ≤ x.timestamp) :
    tsSorted (l ++ [x]) = true := by
  rw [tsSorted_iff_pairwise] at hl ⊢
  apply List.pairwise_append.mpr
  refine ⟨hl, List.pairwise_singleton _ _, ?_⟩
  intro a ha y hy
  rw [List.mem_singleton.mp hy]
  exact hx a ha

theorem tsSorted_filter (l : List Record) (p : Record → Bool)
    (hl : tsSorted l = true) : tsSorted (l.filter p) = true := by
  rw [tsSorted_iff_pairwise] at hl ⊢
  exact hl.sublist (List.filter_sublist l)

/-! ## Append-mode lemmas -/

theorem fred_yahoo_keys_disjoint : ∀ p ∈ YAHOO_TICKERS, p.1 ∉ FRED_SERIES := by
  decide

theorem yahoo_keys_nodup : (YAHOO_TICKERS.map Prod.fst).Nodup := by
  decide

theorem appendEntry_lookup_yahoo (now : DateTime)
    (fe : String → Except Unit (List FredCell)) (ye : String → YSym)
    (lastVals : List (String × Option ℚ)) (p : String × List String)
    (hp : p ∈ YAHOO_TICKERS) :
    (appendEntry now fe ye lastVals).values.lookup p.1
      = some (yahooAppendVal ye lastVals p) := by
  rw [show (appendEntry now fe ye lastVals).values
      = FRED_SERIES.map (fun s => (s, fredAppendVal fe lastVals s))
        ++ YAHOO_TICKERS.map (fun q => (q.1, yahooAppendVal ye lastVals q)) from rfl]
  rw [lookup_append_left_none]
  · cases p with
    | mk n syms => exact lookup_map_of_mem_nodup YAHOO_TICKERS _ n syms hp yahoo_keys_nodup
  · apply lookup_eq_none_of_keys
    intro q hq
    rcases List.mem_map.mp hq with ⟨sid, hs, rfl⟩
    intro he
    exact fred_yahoo_keys_disjoint p hp (he ▸ hs)

/-- Claim C9 (counterexample): as stated, the claim fails — `main` appends
the fresh snapshot at the end of the list, so an ordered-ascending loaded
log whose last record carries a future timestamp (here day 19733, ten days
after the run time, day 19723) yields an unordered log after append+trim. -/
theorem claim9_counterexample :
    tsSorted [{ values := [], timestamp := ⟨19733, 0⟩ }] = true ∧
      tsSorted (mainAppend ⟨19723, 0⟩ (fun _ => Except.error ())
        (fun _ => ⟨Except.error (), Except.error ()⟩)
        [{ values := [], timestamp := ⟨19733, 0⟩ }]) = false := by
  decide

/-- Claim C9 (amended): for every loaded log that is ordered ascending by
timestamp and all of whose timestamps are at most the current time, the log
after appending the now-stamped snapshot and trimming is still ordered
ascending. -/
theorem claim9_append_keeps_order (now : DateTime)
    (fe : String → Except Unit (List FredCell)) (ye : String → YSym)
    (prior : List Record)
    (hsorted : tsSorted prior = true)
    (hbound : ∀ r ∈ prior, r.timestamp ≤ now) :
    tsSorted (mainAppend now fe ye prior) = true := by
  simp only [mainAppend, trim_history]
  apply tsSorted_filter
  apply tsSorted_append_singleton prior _ hsorted
  intro r hr
  exact hbound r hr

/-- Claim C9 (witness): a concrete ordered log with past timestamps stays
ordered through an append cycle. -/
theorem claim9_witness :
    tsSorted (mainAppend ⟨19724, 0⟩ (fun _ => Except.error ())
      (fun _ => ⟨Except.error (), Except.error ()⟩)
      [{ values := [("M2SL", some 100)], timestamp := ⟨19723, 0⟩ }]) = true :=
  claim9_append_keeps_order ⟨19724, 0⟩ _ _ _ (by decide) (by decide)

/-- Claim C10: in append mode the scale factor (the TNX divide-by-10 and the
configured `display_scale`) is applied only to freshly fetched values,
before the fallback substitution; a stored value substituted on fetch
failure is carried through unscaled, over any number of cycles. -/
theorem claim10_fallback_never_rescaled :
    (∀ (now : DateTime) (fe : String → Except Unit (List FredCell))
      (ye : String → YSym) (lastVals : List (String × Option ℚ))
      (p : String × List String), p ∈ YAHOO_TICKERS → get_yahoo ye p.2 = none →
      getVal (appendEntry now fe ye lastVals).values p.1 = getVal lastVals p.1)
    ∧ (∀ (now : DateTime) (fe : String → Except Unit (List FredCell))
      (ye : String → YSym) (lastVals : List (String × Option ℚ))
      (p : String × List String) (v : ℚ), p ∈ YAHOO_TICKERS →
      get_yahoo ye p.2 = some v →
      getVal (appendEntry now fe ye lastVals).values p.1
        = some (if p.1 = "TNX" then v / 10 else v))
    ∧ (∀ (now : DateTime) (fe : String → Except Unit (List FredCell))
      (ye : String → YSym) (vals : List (String × Option ℚ))
      (p : String × List String) (k : ℕ), p ∈ YAHOO_TICKERS →
      get_yahoo ye p.2 = none →
      getVal ((appendCycleVals now fe ye)^[k] vals) p.1 = getVal vals p.1)
    ∧ (∀ (env : String → YSym) (fb : List (String × Option ℚ)) (tid : String)
      (tc : TickerCfg), fetch_yahoo_current env tc.symbols = none →
      (fetch_all_current_y [(tid, tc)] env fb).lookup tid
        = some (if fb.isEmpty then none else getVal fb tid)) := by
  refine ⟨?_, ?_, ?_, ?_⟩
  · intro now fe ye lastVals p hp hfail
    rw [getVal, appendEntry_lookup_yahoo now fe ye lastVals p hp, Option.getD_some,
      yahooAppendVal, hfail]
    by_cases hT : p.1 = "TNX" <;> simp [hT]
  · intro now fe ye lastVals p v hp hsucc
    rw [getVal, appendEntry_lookup_yahoo now fe ye lastVals p hp, Option.getD_some,
      yahooAppendVal, hsucc]
    by_cases hT : p.1 = "TNX" <;> simp [hT]
  · intro now fe ye vals p k hp hfail
    induction k with
    | zero => rfl
    | succ n ih =>
      rw [Function.iterate_succ_apply']
      rw [show appendCycleVals now fe ye ((appendCycleVals now fe ye)^[n] vals)
          = (appendEntry now fe ye ((appendCycleVals now fe ye)^[n] vals)).values
          from rfl]
      rw [getVal, appendEntry_lookup_yahoo _ _ _ _ p hp, Option.getD_some,
        yahooAppendVal, hfail]
      by_cases hT : p.1 = "TNX"
      · simp only [hT, reduceIte, Option.map_none']
        exact hT ▸ ih
      · simp only [hT, reduceIte]
        exact ih
  · intro env fb tid tc hfail
    rw [fetch_all_current_y, List.map_cons, List.map_nil, List.lookup_cons]
    rw [show (tid == tid) = true from beq_self_eq_true tid]
    rw [tickerCurrentVal, hfail]
    by_cases hs : tc.display_scale = 1 <;> simp [hs]

/-- Claim C10 (witness): with every fetch failing, the stored TNX value 4 is
carried forward unscaled through one snapshot build and through three
consecutive cycles. -/
theorem claim10_witness :
    getVal (appendEntry ⟨19723, 0⟩ (fun _ => Except.error ())
        (fun _ => ⟨Except.error (), Except.error ()⟩) [("TNX", some 4)]).values "TNX"
      = getVal [("TNX", some 4)] "TNX" ∧
    getVal ((appendCycleVals ⟨19723, 0⟩ (fun _ => Except.error ())
        (fun _ => ⟨Except.error (), Except.error ()⟩))^[3] [("TNX", some 4)]) "TNX"
      = getVal [("TNX", some 4)] "TNX" :=
  ⟨claim10_fallback_never_rescaled.1 _ _ _ _ ("TNX", ["^TNX"]) (by decide) rfl,
   claim10_fallback_never_rescaled.2.2.1 _ _ _ _ ("TNX", ["^TNX"]) 3 (by decide) rfl⟩

/-- Claim C2: `get_yahoo` / `fetch_yahoo_current` try the candidate symbols
in declared order and return the first per-candidate success; exhaustion of
all candidates yields `None` — the functions are total (no exception reaches
the caller) and never signal failure as zero; the FRED missing marker `"."`
maps to `None`, not zero, in both fetchers. -/
theorem claim2_candidate_fallback :
    (∀ (env : String → YSym) (syms : List String),
      get_yahoo env syms = firstSuccess (syms.map (fun s => ySymResult (env s))))
    ∧ (∀ (env : String → YSym) (syms : List String),
      fetch_yahoo_current env syms
        = firstSuccess (syms.map (fun s => ySymResultF (env s))))
    ∧ (∀ (env : String → YSym) (syms : List String),
      (∀ s ∈ syms, ySymResult (env s) = none) → get_yahoo env syms = none)
    ∧ (∀ (env : String → YSym) (syms : List String),
      (∀ s ∈ syms, ySymResultF (env s) = none) → fetch_yahoo_current env syms = none)
    ∧ (∀ (env : String → YSym) (syms : List String),
      (∀ s ∈ syms, ySymResult (env s) = none) → get_yahoo env syms ≠ some 0)
    ∧ (∀ cells : List FredCell, cells.getLast? = some FredCell.dot →
      get_fred (Except.ok cells) = none ∧ fetch_fred_current (Except.ok cells) = none) := by
  refine ⟨get_yahoo_eq_firstSuccess, fetch_yahoo_current_eq_firstSuccess,
    get_yahoo_exhausted, fetch_yahoo_current_exhausted, ?_, ?_⟩
  · intro env syms h
    rw [get_yahoo_exhausted env syms h]
    simp
  · intro cells h
    exact ⟨by simp [get_fred, h], by simp [fetch_fred_current, h]⟩

/-- Claim C2 (witness): with both candidates failing, both fetchers yield
`None` (not zero); a CSV column ending in `"."` yields `None` in both FRED
fetchers. -/
theorem claim2_witness :
    get_yahoo (fun _ => ⟨Except.error (), Except.error ()⟩) ["A1", "A2"] = none ∧
    fetch_yahoo_current (fun _ => ⟨Except.error (), Except.error ()⟩) ["A1", "A2"] = none ∧
    get_yahoo (fun _ => ⟨Except.error (), Except.error ()⟩) ["A1", "A2"] ≠ some 0 ∧
    (get_fred (Except.ok [FredCell.num 5, FredCell.dot]) = none ∧
      fetch_fred_current (Except.ok [FredCell.num 5, FredCell.dot]) = none) :=
  ⟨claim2_candidate_fallback.2.2.1 _ _ (by decide),
   claim2_candidate_fallback.2.2.2.1 _ _ (by decide),
   claim2_candidate_fallback.2.2.2.2.1 _ _ (by decide),
   claim2_candidate_fallback.2.2.2.2.2 _ rfl⟩

/-- Claim C3: the configured scale factor is applied identically in both
modes — the TNX divide-by-10 is applied to a freshly fetched current value
(append mode) and to every value of the fetched TNX series (backfill mode);
in the `DataFetcher` variant, `display_scale` multiplies both the current
value and the whole historical series; concretely, candidates `[A1, A2]`
with scale 2 where A1 fails and A2 returns 21/2 (i.e. 10.5) yield 21. -/
theorem claim3_scale_both_modes :
    (∀ (now : DateTime) (fe : String → Except Unit (List FredCell))
      (ye : String → YSym) (lastVals : List (String × Option ℚ)) (v : ℚ),
      get_yahoo ye ["^TNX"] = some v →
      getVal (appendEntry now fe ye lastVals).values "TNX" = some (v / 10))
    ∧ (∀ (now : DateTime) (fe ye : String → Option (List (ℤ × ℚ))),
      (backfillCols HISTORY_DAYS now fe ye).lookup "TNX"
        = some (mkCol (gridDays (now.day - HISTORY_DAYS) now.day)
            ((get_yahoo_history ye ["^TNX"]).map
              (fun s => s.map (fun q => (q.1, q.2 / 10))))))
    ∧ (∀ (env : String → YSym) (fb : List (String × Option ℚ)) (tid : String)
      (tc : TickerCfg) (v : ℚ), fetch_yahoo_current env tc.symbols = some v →
      (fetch_all_current_y [(tid, tc)] env fb).lookup tid
        = some (some (v * tc.display_scale)))
    ∧ (∀ (grid : List ℤ) (env : String → Option (List (ℤ × ℚ))) (tid : String)
      (tc : TickerCfg) (s : List (ℤ × ℚ)),
      get_yahoo_history env tc.symbols = some s → s ≠ [] →
      fetch_all_history_col (tid, tc) env grid
        = mkCol grid (some (s.map (fun q => (q.1, q.2 * tc.display_scale)))))
    ∧ getVal (fetch_all_current_y [("A", ⟨["A1", "A2"], 2⟩)]
        (fun sym => if sym = "A2" then ⟨Except.ok [(21 : ℚ) / 2], Except.error ()⟩
                    else ⟨Except.error (), Except.error ()⟩) []) "A" = some 21 := by
  have hscn : getVal (fetch_all_current_y [("A", ⟨["A1", "A2"], 2⟩)]
      (fun sym => if sym = "A2" then ⟨Except.ok [(21 : ℚ) / 2], Except.error ()⟩
                  else ⟨Except.error (), Except.error ()⟩) []) "A"
      = some ((21 : ℚ) / 2 * 2) := rfl
  refine ⟨?_, ?_, ?_, ?_, by rw [hscn]; norm_num⟩
  · intro now fe ye lastVals v hv
    rw [getVal,
      appendEntry_lookup_yahoo now fe ye lastVals ("TNX", ["^TNX"]) (by decide),
      Option.getD_some, yahooAppendVal]
    simp [hv]
  · intro now fe ye
    rw [show backfillCols HISTORY_DAYS now fe ye
        = FRED_SERIES.map (fun sid =>
            (sid, mkCol (gridDays (now.day - HISTORY_DAYS) now.day)
              (get_fred_history fe (now.day - HISTORY_DAYS) sid)))
          ++ YAHOO_TICKERS.map (fun p =>
            (p.1, mkCol (gridDays (now.day - HISTORY_DAYS) now.day)
              ((get_yahoo_history ye p.2).map (tnxAdjust p.1)))) from rfl]
    rw [lookup_append_left_none]
    · rw [lookup_map_of_mem_nodup YAHOO_TICKERS _ "TNX" ["^TNX"] (by decide)
        yahoo_keys_nodup]
      have hf : tnxAdjust "TNX" = fun s : List (ℤ × ℚ) => s.map (fun q => (q.1, q.2 / 10)) := by
        funext s
        rw [tnxAdjust, if_pos rfl]
      show some (mkCol (gridDays (now.day - HISTORY_DAYS) now.day)
          ((get_yahoo_history ye ["^TNX"]).map (tnxAdjust "TNX"))) = _
      rw [hf]
    · apply lookup_eq_none_of_keys
      intro q hq
      rcases List.mem_map.mp hq with ⟨sid, hs, rfl⟩
      intro he
      exact fred_yahoo_keys_disjoint ("TNX", ["^TNX"]) (by decide) (he ▸ hs)
  · intro env fb tid tc v hv
    rw [fetch_all_current_y, List.map_cons, List.map_nil, List.lookup_cons,
      show (tid == tid) = true from beq_self_eq_true tid, tickerCurrentVal, hv]
    by_cases hs : tc.display_scale = 1 <;> simp [hs, applyScale]
  · intro grid env tid tc s hs hne
    rw [fetch_all_history_col]
    simp only [hs]
    rw [if_neg (by simpa [List.isEmpty_iff] using hne)]
    by_cases h1 : tc.display_scale = 1
    · rw [if_pos h1, h1]
      simp [mul_one]
    · rw [if_neg h1]
      rfl

/-- Claim C3 (witness): a freshly fetched TNX value 43/10 is stored as
43/100 in append mode, and a configured scale 2 multiplies a fetched 21/2
into 21 in the `DataFetcher` current fetch. -/
theorem claim3_witness :
    getVal (appendEntry ⟨19723, 0⟩ (fun _ => Except.error ())
        (fun _ => ⟨Except.ok [(43 : ℚ) / 10], Except.error ()⟩) []).values "TNX"
      = some ((43 : ℚ) / 10 / 10) ∧
    (fetch_all_current_y [("A", ⟨["A1", "A2"], 2⟩)]
        (fun _ => ⟨Except.ok [(21 : ℚ) / 2], Except.error ()⟩) []).lookup "A"
      = some (some ((21 : ℚ) / 2 * 2)) :=
  ⟨claim3_scale_both_modes.1 _ _ _ _ ((43 : ℚ) / 10) rfl,
   claim3_scale_both_modes.2.2.1 _ _ _ ⟨["A1", "A2"], 2⟩ ((21 : ℚ) / 2) rfl⟩

/-- Claim C4: trim is a pure filter — a record survives `trim_history` iff
it was in the log and its timestamp is at least `now` minus the retention
window; the output is a sublist of the input (no record is modified or
reordered); a log whose only record is stamped 2024-01-01T00:00:00Z trimmed
with cutoff 2024-01-02 becomes empty. -/
theorem claim4_trim_pure_filter :
    (∀ (now : DateTime) (records : List Record) (r : Record),
      r ∈ trim_history now records
        ↔ r ∈ records ∧ now.subDays HISTORY_DAYS ≤ r.timestamp)
    ∧ (∀ (now : DateTime) (records : List Record),
      (trim_history now records).Sublist records)
    ∧ trim_history ⟨civilDay 2024 1 2 + 1825, 0⟩
        [{ values := [("M2", some 100)], timestamp := ⟨civilDay 2024 1 1, 0⟩ }] = [] :=
  ⟨trim_history_mem, trim_history_sublist, by decide⟩

/-- Claim C1: if every indicator's history fetch fails, `backfill_last_5y`
returns the empty record sequence — never an all-null panel — and the
`--backfill` branch of `main` returns without saving, leaving the existing
store unchanged. -/
theorem claim1_total_failure (now : DateTime)
    (fe ye : String → Option (List (ℤ × ℚ))) (prior : FileState)
    (hfe : ∀ s, fe s = none) (hye : ∀ s, ye s = none) :
    backfill_last_5y now fe ye = [] ∧ main_backfill now fe ye prior = prior := by
  have h := backfill_last_5y_total_failure now fe ye hfe hye
  exact ⟨h, by simp [main_backfill, h]⟩

/-- Claim C1 (witness): with all fetches failing at a concrete run time, the
reconstruction is empty and a concrete prior store file is returned intact. -/
theorem claim1_witness :
    backfill_last_5y ⟨19723, 43200⟩ (fun _ => none) (fun _ => none) = [] ∧
      main_backfill ⟨19723, 43200⟩ (fun _ => none) (fun _ => none)
        (FileState.file (some (Doc.dlist [[("M2SL", Tok.tnull)]])))
        = FileState.file (some (Doc.dlist [[("M2SL", Tok.tnull)]])) :=
  claim1_total_failure _ _ _ _ (fun _ => rfl) (fun _ => rfl)

theorem backfillCols_mem_fred (H : ℕ) (now : DateTime)
    (fe ye : String → Option (List (ℤ × ℚ))) (sid : String)
    (hsid : sid ∈ FRED_SERIES) :
    (sid, mkCol (gridDays (now.day - H) now.day)
        (get_fred_history fe (now.day - H) sid)) ∈ backfillCols H now fe ye := by
  simp only [backfillCols]
  exact List.mem_append.mpr (Or.inl (List.mem_map.mpr ⟨sid, hsid, rfl⟩))

theorem gridDays_eq (H : ℕ) (now : DateTime) :
    gridDays (now.day - H) now.day
      = (List.range (H + 1)).map (fun i : ℕ => now.day - H + (i : ℤ)) := by
  rw [gridDays]
  have h : (now.day - (now.day - (H : ℤ))).toNat + 1 = H + 1 := by omega
  rw [h]

set_option maxRecDepth 8000 in
/-- Claim C5 (counterexample): as stated, the claim fails — the final trim
uses the cutoff `utcnow - 1825 days` including the time of day, while every
backfilled record is stamped midnight, so on a run at 12:00:00 (day 19723,
sec 43200) the record for the first grid day is dropped and the output has
1825 records for a 1826-day grid, not one record per grid day. -/
theorem claim5_counterexample :
    (backfill_last_5y ⟨19723, 43200⟩
        (fun s => if s = "M2SL" then some [((17898 : ℤ), (5 : ℚ))] else none)
        (fun _ => none)).length
      ≠ (gridDays ((19723 : ℤ) - (HISTORY_DAYS : ℤ)) 19723).length := by
  have hmem := backfillCols_mem_fred HISTORY_DAYS ⟨19723, 43200⟩
    (fun s => if s = "M2SL" then some [((17898 : ℤ), (5 : ℚ))] else none)
    (fun _ => none) "M2SL" (by decide)
  have hobs : ∃ p ∈ backfillCols HISTORY_DAYS ⟨19723, 43200⟩
      (fun s => if s = "M2SL" then some [((17898 : ℤ), (5 : ℚ))] else none)
      (fun _ => none), p.2.any Option.isSome = true :=
    ⟨_, hmem, by decide⟩
  rw [backfill_last_5y_eq _ _ _ hobs]
  rw [if_neg (by decide)]
  rw [List.length_map, List.length_drop, List.length_range]
  rw [show (gridDays ((19723 : ℤ) - (HISTORY_DAYS : ℤ)) 19723).length
      = HISTORY_DAYS + 1 from gridLength_eq HISTORY_DAYS ⟨19723, 43200⟩]
  omega

/-- Claim C5 (amended): provided at least one aligned column has an
observation, the backfill output has exactly one midnight-stamped record per
grid calendar day with no gaps, except that the first grid day is dropped
whenever the run time-of-day is not exactly midnight; every column with at
least one aligned observation is non-null in every output record; columns
with zero observations stay null in every record; and each record's value
for a column is the last observation at or before its day, forward-filled,
falling back to the earliest observation for leading days. -/
theorem claim5_density_amended (now : DateTime)
    (fe ye : String → Option (List (ℤ × ℚ)))
    (hobs : ∃ p ∈ backfillCols HISTORY_DAYS now fe ye, p.2.any Option.isSome = true) :
    ((backfill_last_5y now fe ye).map (fun r => r.timestamp)
      = (if now.sec = 0 then gridDays (now.day - HISTORY_DAYS) now.day
         else (gridDays (now.day - HISTORY_DAYS) now.day).drop 1).map
          (fun d => (⟨d, 0⟩ : DateTime)))
    ∧ (∀ p ∈ backfillCols HISTORY_DAYS now fe ye, p.2.any Option.isSome = true →
        ∀ r ∈ backfill_last_5y now fe ye, r.values.lookup p.1 ≠ some none)
    ∧ (∀ p ∈ backfillCols HISTORY_DAYS now fe ye, (∀ x ∈ p.2, x = none) →
        ∀ r ∈ backfill_last_5y now fe ye, r.values.lookup p.1 = some none)
    ∧ (∀ p ∈ backfillCols HISTORY_DAYS now fe ye, ∀ r ∈ backfill_last_5y now fe ye,
        ∀ i : ℕ, i < HISTORY_DAYS + 1 →
        r.timestamp.day = now.day - HISTORY_DAYS + i →
        r.values.lookup p.1 = some (fillValue p.2 i)) := by
  have hnd := backfillCols_keys_nodup HISTORY_DAYS now fe ye
  refine ⟨?_, ?_, ?_, ?_⟩
  · rw [backfill_last_5y_eq now fe ye hobs, gridDays_eq]
    by_cases hsec : now.sec = 0
    · rw [if_pos hsec, if_pos hsec, List.map_map, List.map_map]
      rfl
    · rw [if_neg hsec, if_neg hsec, List.map_map, ← List.map_drop, List.map_map]
      rfl
  · intro p hp hpobs r hr
    rcases backfill_mem now fe ye hobs r hr with ⟨i, hiL, hvals, _⟩
    rw [hvals, backfillRow_lookup _ _ _ _ hp hnd]
    have hlen := backfillCols_length HISTORY_DAYS now fe ye p hp
    rw [fill_getD p.2 i (by rw [hlen, gridLength_eq]; exact hiL)]
    intro hcontra
    exact fillValue_ne_none p.2 i hpobs (Option.some.inj hcontra)
  · intro p hp hnull r hr
    rcases backfill_mem now fe ye hobs r hr with ⟨i, hiL, hvals, _⟩
    rw [hvals, backfillRow_lookup _ _ _ _ hp hnd]
    have hlen := backfillCols_length HISTORY_DAYS now fe ye p hp
    rw [fill_getD p.2 i (by rw [hlen, gridLength_eq]; exact hiL)]
    rw [fillValue_of_all_none p.2 i hnull]
  · intro p hp r hr i hiL hday
    rcases backfill_mem now fe ye hobs r hr with ⟨j, hjL, hvals, hts⟩
    have hij : i = j := by
      rw [hts] at hday
      simp only at hday
      omega
    subst hij
    rw [hvals, backfillRow_lookup _ _ _ _ hp hnd]
    have hlen := backfillCols_length HISTORY_DAYS now fe ye p hp
    rw [fill_getD p.2 i (by rw [hlen, gridLength_eq]; exact hiL)]

set_option maxRecDepth 8000 in
/-- Claim C5 (witness): at a concrete noon run with one observed indicator,
the output timestamps are exactly the grid midnights minus the first day. -/
theorem claim5_witness :
    (backfill_last_5y ⟨19723, 43200⟩
        (fun s => if s = "WALCL" then some [((17898 : ℤ), (7 : ℚ))] else none)
        (fun _ => none)).map (fun r => r.timestamp)
      = (if (43200 : ℕ) = 0 then gridDays ((19723 : ℤ) - (HISTORY_DAYS : ℤ)) 19723
         else (gridDays ((19723 : ℤ) - (HISTORY_DAYS : ℤ)) 19723).drop 1).map
          (fun d => (⟨d, 0⟩ : DateTime)) :=
  (claim5_density_amended ⟨19723, 43200⟩ _ _
    ⟨_, backfillCols_mem_fred HISTORY_DAYS ⟨19723, 43200⟩ _ _ "WALCL" (by decide),
      by decide⟩).1

/-! ## Serialization round-trip lemmas -/

theorem parseTok_dumpQ (q : ℚ) (h : FiniteDec q) : parseTok (dumpQ q) = some (some q) := by
  have hk : q.den ∣ 10 ^ max q.den 1 :=
    dvd_trans h (pow_dvd_pow 10 (le_max_left q.den 1))
  have hdenpos : 0 < q.den := q.den_pos
  simp only [dumpQ, parseTok, Option.some.injEq]
  rw [parseNum]
  have hsum : q.num.natAbs * (10 ^ max q.den 1 / q.den) / 10 ^ max q.den 1 * 10 ^ max q.den 1
      + q.num.natAbs * (10 ^ max q.den 1 / q.den) % 10 ^ max q.den 1
      = q.num.natAbs * (10 ^ max q.den 1 / q.den) := by
    rw [Nat.mul_comm]
    exact Nat.div_add_mod _ _
  rw [hsum]
  have hcast : ((q.num.natAbs * (10 ^ max q.den 1 / q.den) : ℕ) : ℚ)
      = (q.num.natAbs : ℚ) * (((10 ^ max q.den 1 : ℕ) : ℚ) / (q.den : ℚ)) := by
    rw [Nat.cast_mul, Nat.cast_div hk (by exact_mod_cast hdenpos.ne')]
  rw [hcast]
  have hM : ((10 ^ max q.den 1 : ℕ) : ℚ) ≠ 0 := by
    exact_mod_cast (pow_pos (by norm_num : (0 : ℕ) < 10) _).ne'
  have hden : (q.den : ℚ) ≠ 0 := by exact_mod_cast hdenpos.ne'
  have habs : (if decide (q.num < 0) = true then (-1 : ℚ) else 1) * (q.num.natAbs : ℚ)
      = (q.num : ℚ) := by
    by_cases hneg : q.num < 0
    · rw [if_pos (decide_eq_true hneg), Nat.cast_natAbs (α := ℚ) q.num,
        abs_of_neg hneg]
      push_cast
      ring
    · rw [if_neg (by simp [hneg]), Nat.cast_natAbs (α := ℚ) q.num,
        abs_of_nonneg (not_lt.mp hneg)]
      ring
  calc (if decide (q.num < 0) = true then (-1 : ℚ) else 1)
        * ((q.num.natAbs : ℚ) * (((10 ^ max q.den 1 : ℕ) : ℚ) / (q.den : ℚ))
          / ((10 ^ max q.den 1 : ℕ) : ℚ))
      = ((if decide (q.num < 0) = true then (-1 : ℚ) else 1) * (q.num.natAbs : ℚ))
        / (q.den : ℚ) := by
        field_simp
        ring
    _ = (q.num : ℚ) / (q.den : ℚ) := by rw [habs]
    _ = q := Rat.num_div_den q

theorem parseTok_dumpVal (v : Option ℚ) (h : ValidVal v) : parseTok (dumpVal v) = some v := by
  cases v with
  | none => rfl
  | some q => exact parseTok_dumpQ q h

theorem lookup_timestamp_dumped (vals : List (String × Option ℚ))
    (hk : ∀ p ∈ vals, p.1 ≠ "timestamp") (ts : DateTime) :
    (vals.map (fun p => (p.1, dumpVal p.2))
      ++ [("timestamp", Tok.tstr ts)]).lookup "timestamp" = some (Tok.tstr ts) := by
  rw [lookup_append_left_none]
  · rfl
  · apply lookup_eq_none_of_keys
    intro p hp
    rcases List.mem_map.mp hp with ⟨q, hq, rfl⟩
    exact hk q hq

theorem filter_dumped (vals : List (String × Option ℚ))
    (hk : ∀ p ∈ vals, p.1 ≠ "timestamp") (ts : DateTime) :
    (vals.map (fun p => (p.1, dumpVal p.2)) ++ [("timestamp", Tok.tstr ts)]).filter
        (fun p => p.1 != "timestamp")
      = vals.map (fun p => (p.1, dumpVal p.2)) := by
  rw [List.filter_append,
    show List.filter (fun p : String × Tok => p.1 != "timestamp")
      [(("timestamp" : String), Tok.tstr ts)] = [] from rfl,
    List.append_nil]
  apply List.filter_eq_self.mpr
  intro p hp
  rcases List.mem_map.mp hp with ⟨q, hq, rfl⟩
  exact bne_iff_ne.mpr (hk q hq)

theorem parseVals_dumped (vals : List (String × Option ℚ))
    (hv : ∀ p ∈ vals, ValidVal p.2) :
    parseVals (vals.map (fun p => (p.1, dumpVal p.2))) = some vals := by
  induction vals with
  | nil => rfl
  | cons p rest ih =>
    rw [List.map_cons, parseVals,
      parseTok_dumpVal p.2 (hv p (List.mem_cons_self p rest)),
      ih (fun q hq => hv q (List.mem_cons_of_mem _ hq))]

theorem parseRecord_dumpRecord (r : Record)
    (hk : ∀ p ∈ r.values, p.1 ≠ "timestamp")
    (hv : ∀ p ∈ r.values, ValidVal p.2) :
    parseRecord (dumpRecord r) = some r := by
  rw [dumpRecord, parseRecord, lookup_timestamp_dumped r.values hk r.timestamp,
    filter_dumped r.values hk r.timestamp, parseVals_dumped r.values hv]

theorem parseRecs_dumped (records : List Record) (h : ValidStore records) :
    parseRecs (records.map dumpRecord) = some records := by
  induction records with
  | nil => rfl
  | cons r rest ih =>
    rw [List.map_cons, parseRecs,
      parseRecord_dumpRecord r (h r (List.mem_cons_self r rest)).1
        (h r (List.mem_cons_self r rest)).2,
      ih (fun x hx => h x (List.mem_cons_of_mem _ hx))]

/-- Claim C6: for every valid stored log (no reserved key collision, every
value a finite decimal — which covers every Python float), save followed by
load round-trips exactly: numbers and nulls are preserved value-for-value
and the timestamp is preserved, hence `save (load store) = store` for any
store produced by save. -/
theorem claim6_save_load_roundtrip (records : List Record) (h : ValidStore records) :
    loadRecords (save_history records) = some records ∧
    save_history ((loadRecords (save_history records)).getD []) = save_history records := by
  have h1 : loadRecords (save_history records) = some records := by
    rw [save_history, loadRecords, loadDoc]
    exact parseRecs_dumped records h
  exact ⟨h1, by rw [h1, Option.getD_some]⟩

/-- Claim C6 (witness): a concrete two-indicator record with a fractional
value and a null survives the round trip. -/
theorem claim6_witness :
    loadRecords (save_history
        [{ values := [("M2SL", some ((21 : ℚ) / 2)), ("DXY", none)]
           timestamp := ⟨19723, 0⟩ }])
      = some [{ values := [("M2SL", some ((21 : ℚ) / 2)), ("DXY", none)]
                timestamp := ⟨19723, 0⟩ }] :=
  (claim6_save_load_roundtrip _ (by
    intro r hr
    rw [List.mem_singleton] at hr
    subst hr
    constructor
    · intro p hp
      fin_cases hp <;> decide
    · intro p hp
      fin_cases hp
      · show FiniteDec ((21 : ℚ) / 2)
        rw [FiniteDec, show ((21 : ℚ) / 2).den = 2 from by norm_num]
        decide
      · trivial)).1

/-- Claim C7 (counterexample): as stated over both loaders, the claim fails —
the refactored loader catches the parse error and returns the empty
sequence, indistinguishable from an absent store, instead of failing. -/
theorem claim7_counterexample :
    load_existing_refactored (FileState.file none) = Except.ok [] ∧
      load_existing_refactored FileState.absent = Except.ok [] :=
  ⟨rfl, rfl⟩

/-- Claim C7 (amended): `update_data.load_existing` distinguishes absent
from corrupt — no file yields the empty sequence, malformed content is
fatal (the exception propagates), and a parsed document is normalized by
`loadDoc` (legacy single mapping to a one-element list, empty document to
the empty list) — but the refactored loader treats corrupt as empty. -/
theorem claim7_load_absent_vs_corrupt :
    load_existing FileState.absent = Except.ok [] ∧
    load_existing (FileState.file none) = Except.error () ∧
    (∀ d : Doc, load_existing (FileState.file (some d)) = Except.ok (loadDoc d)) ∧
    (∀ r : TokRecord, loadDoc (Doc.ddict r) = [r]) ∧
    load_existing_refactored (FileState.file none) = Except.ok [] :=
  ⟨rfl, rfl, fun _ => rfl, fun _ => rfl, rfl⟩

/-- Claim C8 (counterexample): as stated, the claim fails — save opens the
store with truncation, so a write failing right after the open leaves an
empty file where the nonempty prior store was. -/
theorem claim8_counterexample :
    save_history_run [[("M2SL", Tok.tnull)]]
        [{ values := [("M2SL", some 1)], timestamp := ⟨19723, 0⟩ }]
        (WriteOutcome.failAfter 0) = [] ∧
      ([] : List TokRecord) ≠ [[("M2SL", Tok.tnull)]] :=
  ⟨rfl, by decide⟩

/-- Claim C8 (amended): save performs an in-place truncating overwrite, not
write-then-replace — the resulting file never depends on the prior content;
success leaves exactly the new serialization, a failure after `n` records
leaves that prefix, and a failure right after opening loses a nonempty
prior store. -/
theorem claim8_save_truncating_overwrite :
    (∀ (p1 p2 : List TokRecord) (records : List Record) (o : WriteOutcome),
      save_history_run p1 records o = save_history_run p2 records o)
    ∧ (∀ (prior : List TokRecord) (records : List Record),
      save_history_run prior records WriteOutcome.success = records.map dumpRecord)
    ∧ (∀ (prior : List TokRecord) (records : List Record) (n : ℕ),
      save_history_run prior records (WriteOutcome.failAfter n)
        = (records.map dumpRecord).take n)
    ∧ (∀ (prior : List TokRecord) (records : List Record), prior ≠ [] →
      save_history_run prior records (WriteOutcome.failAfter 0) ≠ prior) := by
  refine ⟨?_, fun _ _ => rfl, fun _ _ _ => rfl, ?_⟩
  · intro p1 p2 records o
    cases o <;> rfl
  · intro prior records hne
    simp only [save_history_run, List.take_zero]
    exact fun hc => hne hc.symm

/-- Claim C8 (witness): a failure right after opening loses a concrete
one-record prior store. -/
theorem claim8_witness :
    save_history_run [[("DXY", Tok.tnull)]] [] (WriteOutcome.failAfter 0)
      ≠ [[("DXY", Tok.tnull)]] :=
  claim8_save_truncating_overwrite.2.2.2 _ [] (by decide)
